import Mathlib

/-!
Verification of the GuitarSet annotation-processing scripts
(`annotation_process/mono_anal.py`, `annotation_process/stem_anal.py`,
`annotation_process/note_anal.py`).

The scripts are linear pipelines around external DSP collaborators (the
pYin analyzer invoked through the vamp host, `librosa.feature.rmse`,
`librosa.util.peak_pick`, `librosa.effects.hpss`).  Following the
component boundary the repository itself draws, the outputs of those collaborators
(pitch tracks, energy envelopes, peak-picked candidate frames, the
analyzer time step) are taken as parameters, and the post-processing logic of the repository itself is embedded verbatim.  Python floats are modelled
as rationals (`ℚ`); all the embedded logic is threshold comparison and
affine arithmetic on such values, where the rational model is exact.
A Python `IndexError` is modelled by `Option.none`.
-/

namespace GuitarSet

/-- The constant `1e-14` of `stem_anal.segment_offset` (silence floor). -/
def eps14 : ℚ := 1 / 10 ^ 14

/-- The constant `1e-15` added to the rms envelope in
`stem_anal.segment_offset` line 190 (`... + 1e-15`). -/
def eps15 : ℚ := 1 / 10 ^ 15

/-- Computes `rms = librosa.feature.rmse(...) + 1e-15` (stem_anal.py line 190):
the raw rms envelope shifted by `1e-15`, elementwise. -/
def addEps (rawRms : List ℚ) : List ℚ := rawRms.map (fun e => e + eps15)

/-! ### mono_anal.py: trim_pitch_track_end (lines 52-66)

Python source:
```
i=0
while (pitch_track[i] < 0):
    if i == len(pitch_track) - 1: break
    i += 1
st = i
while (pitch_track[i] > 0):
    if i == len(pitch_track) - 1: break
    i += 1
end = i
return pitch_track[st:end], st
```
Both loops have the same shape: advance `i` while the current entry
satisfies a condition, stopping early (with `i` unmoved) at the last
index.  `scanLoopAux` is that loop, fuel-indexed; fuel `pitch_track.length`
is enough since the loop runs at most `length - 1` iterations. -/

/-- One of the two index-advancing `while` loops of
`trim_pitch_track_end`, with explicit fuel.  The out-of-fuel and
out-of-range answers are never reached from the actual entry points
(the loops start at an in-range index and stop at `length - 1`). -/
def scanLoopAux (cond : ℚ → Bool) (pt : List ℚ) : Nat → Nat → Nat
  | 0, i => i
  | fuel + 1, i =>
    if i < pt.length then
      if cond (pt.getD i 0) then
        if i = pt.length - 1 then i else scanLoopAux cond pt fuel (i + 1)
      else i
    else i

/-- The `while` loop of `trim_pitch_track_end` starting at index `i`. -/
def scanLoop (cond : ℚ → Bool) (pt : List ℚ) (i : Nat) : Nat :=
  scanLoopAux cond pt pt.length i

/-- Embeds `mono_anal.trim_pitch_track_end` (lines 52-66).  On the empty track
the very first subscript `pitch_track[0]` raises `IndexError`, modelled
as `none`.  Otherwise: scan to the first entry not `< 0` (stopping at
the last index), record it as `st`; scan on to the first entry not
`> 0` (stopping at the last index), record it as `end`; return the
slice `pitch_track[st:end]` together with `st`. -/
def trim_pitch_track_end (pitch_track : List ℚ) : Option (List ℚ × Nat) :=
  if pitch_track.isEmpty then none
  else
    let st := scanLoop (fun x => decide (x < 0)) pitch_track 0
    let e := scanLoop (fun x => decide (0 < x)) pitch_track st
    some ((pitch_track.drop st).take (e - st), st)

/-- File-open mode of a CSV output (mode string a or w in the Python
open calls; no other modes occur on the CSV outputs). -/
inductive FileMode
  | append
  | write
deriving DecidableEq, Repr

/-- One open-file event on an output file, recorded as the role of the
file ("pt" = pitch-track csv, "onoff" = onset/offset csv) and mode. -/
structure OpenEvent where
  tag : String
  mode : FileMode
deriving DecidableEq, Repr

/-- Observable outcome of `mono_anal.main` (lines 68-88): process exit
code, whether the "trimmed pitch_track is too short" message was
printed, the rows written to the pitch-track CSV and to the
onset/offset CSV, and the file-open events in order. -/
structure MonoResult where
  exitCode : Nat
  printedDrop : Bool
  ptRows : List (ℚ × ℚ)
  onoffRows : List (ℚ × ℚ)
  opens : List OpenEvent
deriving DecidableEq, Repr

/-- Embeds `mono_anal.main` (lines 68-88), parameterized over the analyzer
response (`t_step`, `pitch_track` from `mono_anal`/pYin) instead of the
audio file.  `p_time = np.arange(len(trimmed)) * t_step + seg_start_time`;
if it is empty the script prints a message and returns 0 writing
nothing; otherwise `on_time = p_time[0]`, `off_time = p_time[-1]`, the
pitch-track rows are `zip(p_time, trimmed[st:-1])` and the single
onset/offset row is `(on_time, off_time)`.  A trim-time `IndexError`
(empty analyzer track) propagates as `none`. -/
def mono_main (t_step seg_start_time : ℚ) (pitch_track : List ℚ) : Option MonoResult :=
  match trim_pitch_track_end pitch_track with
  | none => none
  | some (trimmed, st) =>
    let p_time : List ℚ := (List.range trimmed.length).map (fun i : Nat => (i : ℚ) * t_step + seg_start_time)
    if p_time.length = 0 then
      some { exitCode := 0, printedDrop := true, ptRows := [], onoffRows := [], opens := [] }
    else
      let on_time := p_time.getD 0 0
      let off_time := p_time.getD (p_time.length - 1) 0
      some { exitCode := 0
             printedDrop := false
             ptRows := p_time.zip ((trimmed.take (trimmed.length - 1)).drop st)
             onoffRows := [(on_time, off_time)]
             opens := [⟨"pt", FileMode.append⟩, ⟨"onoff", FileMode.append⟩] }

/-! ### stem_anal.py: segment_offset (lines 180-237) and helpers

External collaborators (hpss, pYin via `pt_anal`, `librosa.feature.rmse`,
`offset_strength_multi`, `librosa.util.peak_pick`) are parameters:
* `rawRms` — the rms envelope `librosa.feature.rmse(y=seg, hop_length=256)[0]`;
* `tpp` — the combined likelihood curve `to_peak_pick` (after the
  `np.maximum(..., 0.0)` floor), as a flat list;
* `cand` — the raw frame candidates returned by `librosa.util.peak_pick`;
* `tStep` — the analyzer time step `t_step` from `pt_anal`;
* `ptk` — the pitch track `pt` from `pt_anal`. -/

/-- The 4-second truncation of `stem_anal.segment_offset` lines 181-182:
`if len(seg) > sr*4: seg = seg[0:int(sr*4)]`. -/
def truncate4s (seg : List ℚ) (sr : Nat) : List ℚ :=
  if 4 * sr < seg.length then seg.take (4 * sr) else seg

/-- The silence-search loop of `stem_anal.segment_offset` lines 192-197
(`for i, e in enumerate(rms): if i < 5: continue; if e < 1e-14:
silence_f = i; break`), walking the list with its running index.
Returns the index of the first hit, `none` if there is none. -/
def silenceAux : List ℚ → Nat → Option Nat
  | [], _ => none
  | e :: rest, i => if 5 ≤ i ∧ e < eps14 then some i else silenceAux rest (i + 1)

/-- Variable `silence_f` of `stem_anal.segment_offset` lines 191-197: initialized
to `rms.shape[0]-1` and overwritten by the first frame index `i ≥ 5`
with `rms[i] < 1e-14`, if any. -/
def silence_f (rms : List ℚ) : Nat :=
  (silenceAux rms 0).getD (rms.length - 1)

/-- The candidate filtering of `stem_anal.segment_offset` lines 211-212:
keep peak-picked frames `f` with `to_peak_pick[f] > 2`, then those with
`t_vec[f] > 0.06` where `t_vec[f] = f * t_step`. -/
def filter_cand (cand : List Nat) (tpp : List ℚ) (tStep : ℚ) : List Nat :=
  (cand.filter (fun f => decide (2 < tpp.getD f 0))).filter
    (fun f => decide ((6 : ℚ) / 100 < (f : ℚ) * tStep))

/-- Variable `offset_frames` of `stem_anal.segment_offset` lines 210-214: the
filtered peak-picked candidates, or `[silence_f]` when none survive. -/
def offset_frames (cand : List Nat) (tpp : List ℚ) (tStep : ℚ) (rms : List ℚ) : List Nat :=
  let fc := filter_cand cand tpp tStep
  if fc.isEmpty then [silence_f rms] else fc

/-- Embeds `librosa.frames_to_time(f, hop_length, sr)` (default `n_fft`):
`f * hop_length / sr` seconds. -/
def frames_to_time (f hop sr : Nat) : ℚ :=
  ((f * hop : Nat) : ℚ) / (sr : ℚ)

/-- The return value of `stem_anal.segment_offset` (lines 190-237) after
the external signal computations: `rms = rmse + 1e-15`; the detected
frame is the head of `offset_frames`; the function returns
`(offset_times[0] + seg_start_time, pt[0:offset_frames[0]], t_step)`. -/
def segment_offset (cand : List Nat) (tpp : List ℚ) (tStep : ℚ) (rawRms : List ℚ)
    (ptk : List ℚ) (sr : Nat) (seg_start_time : ℚ) : ℚ × List ℚ × ℚ :=
  let rms := addEps rawRms
  let frames := offset_frames cand tpp tStep rms
  let f0 := frames.headD 0
  (frames_to_time f0 256 sr + seg_start_time, ptk.take f0, tStep)

/-- Embeds `stem_anal.chop_sig` (lines 284-293): segment `i` is the slice
`y[adj_on_samps[i] : end]` with `end = adj_on_samps[i+1]`, or `len(y)`
for the last onset. -/
def chop_sig (y : List ℚ) (adj_on_samps : List Nat) : List (List ℚ) :=
  (List.range adj_on_samps.length).map (fun i =>
    let onSamp := adj_on_samps.getD i 0
    let e := if i + 1 = adj_on_samps.length then y.length else adj_on_samps.getD (i + 1) 0
    (y.drop onSamp).take (e - onSamp))

/-- The per-segment pitch-track rows written by `stem_anal.main`
lines 328-332: `for i, f in enumerate(pitch_track): if f > 0:
writer.writerow([seg_start_time + i*float(t_step), f])`. -/
def stem_pt_rows (seg_start_time t_step : ℚ) (pitch_track : List ℚ) : List (ℚ × ℚ) :=
  (pitch_track.enum.filter (fun p => decide (0 < p.2))).map
    (fun p => (seg_start_time + (p.1 : ℚ) * t_step, p.2))

/-- The ordered file-open events of `stem_anal.main` (lines 308-337) for
a run that processes `nsegs` segments: both CSV outputs are first opened
in write mode (lines 318-319, "about to clear csv files"), then each
segment opens each file once in append mode (lines 328, 333). -/
def stem_main_opens (nsegs : Nat) : List OpenEvent :=
  ⟨"pt", FileMode.write⟩ :: ⟨"onoff", FileMode.write⟩ ::
    (List.range nsegs).flatMap (fun _ => [⟨"pt", FileMode.append⟩, ⟨"onoff", FileMode.append⟩])

/-! ### note_anal.py: segment_offset (lines 94-131) and main (134-147) -/

/-- The scan loop of `note_anal.segment_offset` lines 105-107
(`offset_frame = 10; while offset_frame < len(log_offset_prob) and
log_offset_prob[offset_frame] < 8.5: offset_frame += 1`), fuel-indexed;
fuel `lop.length` suffices since each iteration needs `i < lop.length`
and `i` starts at 10. -/
def noteScanAux (lop : List ℚ) : Nat → Nat → Nat
  | 0, i => i
  | fuel + 1, i =>
    if i < lop.length ∧ lop.getD i 0 < 17 / 2 then noteScanAux lop fuel (i + 1) else i

/-- Variable `offset_frame` of `note_anal.segment_offset` lines 105-107. -/
def note_offset_frame (log_offset_prob : List ℚ) : Nat :=
  noteScanAux log_offset_prob log_offset_prob.length 10

/-- The return value of `note_anal.segment_offset` (lines 94-131) after
the external signal computations, parameterized over the derived curve
`log_offset_prob = -log(rms * vp)` and the pYin outputs: returns
`(frames_to_time(offset_frame, 256, sr) + seg_start_time,
pt[0:offset_frame], t_step)`. -/
def note_segment_offset (log_offset_prob : List ℚ) (ptk : List ℚ) (tStep : ℚ)
    (sr : Nat) (seg_start_time : ℚ) : ℚ × List ℚ × ℚ :=
  let f := note_offset_frame log_offset_prob
  (frames_to_time f 256 sr + seg_start_time, ptk.take f, tStep)

/-- The ordered file-open events of `note_anal.main` (lines 134-147):
the pitch-track CSV then the onset/offset CSV, both in append mode. -/
def note_main_opens : List OpenEvent :=
  [⟨"pt", FileMode.append⟩, ⟨"onoff", FileMode.append⟩]

/-! ### Loop lemmas -/

/-- The trimming loop never moves past the last index when it starts at
or below it (the `if i == len(pitch_track) - 1: break` guard). -/
lemma scanLoopAux_le (cond : ℚ → Bool) (pt : List ℚ) :
    ∀ fuel i, i ≤ pt.length - 1 → scanLoopAux cond pt fuel i ≤ pt.length - 1 := by
  intro fuel
  induction fuel with
  | zero => intro i h; simpa [scanLoopAux] using h
  | succ n ih =>
    intro i h
    rw [scanLoopAux]
    split
    · split
      · split
        · exact h
        · exact ih (i + 1) (by omega)
      · exact h
    · exact h

/-- The trimming loop stops immediately at an in-range index whose
entry fails the condition. -/
lemma scanLoopAux_stop (cond : ℚ → Bool) (pt : List ℚ) (fuel i : Nat)
    (hi : i < pt.length) (hc : cond (pt.getD i 0) = false) (hf : 0 < fuel) :
    scanLoopAux cond pt fuel i = i := by
  obtain ⟨m, rfl⟩ : ∃ m, fuel = m + 1 := ⟨fuel - 1, by omega⟩
  rw [List.getD_eq_getElem _ _ hi] at hc
  rw [scanLoopAux]
  simp [hi, hc]

/-- When every entry satisfies the condition, the trimming loop walks
all the way to the last index. -/
lemma scanLoopAux_all (cond : ℚ → Bool) (pt : List ℚ)
    (hall : ∀ x ∈ pt, cond x = true) :
    ∀ fuel i, pt.length ≤ fuel + i → i < pt.length →
      scanLoopAux cond pt fuel i = pt.length - 1 := by
  intro fuel
  induction fuel with
  | zero => intro i h hi; omega
  | succ n ih =>
    intro i h hi
    have hmem : pt.getD i 0 ∈ pt := by
      rw [List.getD_eq_getElem _ _ hi]; exact List.getElem_mem hi
    rw [scanLoopAux]
    simp only [hi, if_true, hall _ hmem]
    split
    · omega
    · exact ih (i + 1) (by omega) (by omega)

/-- If the silence scan finds a frame, it is the first index `≥ 5` (and
`≥` the start index) whose entry is below the `1e-14` floor. -/
lemma silenceAux_some (l : List ℚ) :
    ∀ i j, silenceAux l i = some j →
      i ≤ j ∧ 5 ≤ j ∧ j - i < l.length ∧ l.getD (j - i) 0 < eps14 ∧
        ∀ m, i ≤ m → m < j → ¬(5 ≤ m ∧ l.getD (m - i) 0 < eps14) := by
  induction l with
  | nil => intro i j h; simp [silenceAux] at h
  | cons e rest ih =>
    intro i j h
    rw [silenceAux] at h
    split_ifs at h with hc
    · obtain ⟨h5, he⟩ := hc
      cases h
      refine ⟨le_refl _, h5, by simp, by simpa using he, ?_⟩
      intro m h1 h2; omega
    · obtain ⟨h1, h5, hlt, hget, hmin⟩ := ih (i + 1) j h
      refine ⟨by omega, h5, by simp only [List.length_cons]; omega, ?_, ?_⟩
      · have heq : j - i = (j - (i + 1)) + 1 := by omega
        rw [heq, List.getD_cons_succ]; exact hget
      · intro m hm1 hm2
        rcases Nat.eq_or_lt_of_le hm1 with rfl | hmi
        · simp only [Nat.sub_self, List.getD_cons_zero]
          exact hc
        · have hrest := hmin m (by omega) hm2
          have heq : m - i = (m - (i + 1)) + 1 := by omega
          rw [heq, List.getD_cons_succ]
          exact hrest

/-- If the silence scan finds nothing, no in-range index `≥ 5` past the
start satisfies the floor test. -/
lemma silenceAux_none (l : List ℚ) :
    ∀ i, silenceAux l i = none →
      ∀ k, k < l.length → ¬(5 ≤ i + k ∧ l.getD k 0 < eps14) := by
  induction l with
  | nil => intro i _ k hk; simp at hk
  | cons e rest ih =>
    intro i h k hk
    rw [silenceAux] at h
    split_ifs at h with hc
    cases k with
    | zero =>
      intro hcon
      exact hc ⟨by omega, by simpa using hcon.2⟩
    | succ m =>
      have hrest := ih (i + 1) h m (by simpa using hk)
      rw [List.getD_cons_succ]
      intro hcon
      exact hrest ⟨by omega, hcon.2⟩

/-- When some in-range frame `≥ 5` is below the floor, `silence_f` is
the first such frame. -/
lemma silence_f_found (rms : List ℚ) (k : Nat) (hk : k < rms.length)
    (h5 : 5 ≤ k) (hv : rms.getD k 0 < eps14) :
    5 ≤ silence_f rms ∧ silence_f rms < rms.length ∧
      rms.getD (silence_f rms) 0 < eps14 ∧
      ∀ m, m < silence_f rms → ¬(5 ≤ m ∧ rms.getD m 0 < eps14) := by
  cases hs : silenceAux rms 0 with
  | none => exact absurd ⟨by omega, hv⟩ (silenceAux_none rms 0 hs k hk)
  | some j =>
    obtain ⟨-, hj5, hjlt, hjv, hmin⟩ := silenceAux_some rms 0 j hs
    simp only [silence_f, hs, Option.getD_some]
    refine ⟨hj5, by simpa using hjlt, by simpa using hjv, ?_⟩
    intro m hm
    simpa using hmin m (Nat.zero_le m) hm

/-- When no in-range frame `≥ 5` is below the floor, `silence_f` is the
last frame index. -/
lemma silence_f_not_found (rms : List ℚ)
    (h : ∀ k, k < rms.length → ¬(5 ≤ k ∧ rms.getD k 0 < eps14)) :
    silence_f rms = rms.length - 1 := by
  cases hs : silenceAux rms 0 with
  | none => simp [silence_f, hs]
  | some j =>
    obtain ⟨-, hj5, hjlt, hjv, hmin⟩ := silenceAux_some rms 0 j hs
    exact absurd ⟨hj5, by simpa using hjv⟩ (h j (by simpa using hjlt))

/-- Entry `p_time[i]` for `p_time = np.arange(n) * t_step + seg_start_time`. -/
lemma p_time_getD (t s : ℚ) (n i : Nat) (hi : i < n) :
    ((List.range n).map (fun j : Nat => (j : ℚ) * t + s)).getD i 0 = (i : ℚ) * t + s := by
  rw [List.getD_eq_getElem _ _ (by simpa using hi)]
  simp

/-- Case analysis of `mono_anal.main`: either the trimmed track was
empty (message printed, nothing written) or the full write path ran. -/
lemma mono_main_shape (t s : ℚ) (ptk : List ℚ) (r : MonoResult)
    (hr : mono_main t s ptk = some r) :
    r = { exitCode := 0, printedDrop := true, ptRows := [], onoffRows := [], opens := [] } ∨
    ∃ trimmed st, trim_pitch_track_end ptk = some (trimmed, st) ∧ trimmed ≠ [] ∧
      r = { exitCode := 0, printedDrop := false,
            ptRows := ((List.range trimmed.length).map (fun j : Nat => (j : ℚ) * t + s)).zip
              ((trimmed.take (trimmed.length - 1)).drop st),
            onoffRows := [(s, ((trimmed.length - 1 : Nat) : ℚ) * t + s)],
            opens := [⟨"pt", FileMode.append⟩, ⟨"onoff", FileMode.append⟩] } := by
  rw [mono_main] at hr
  cases htr : trim_pitch_track_end ptk with
  | none => rw [htr] at hr; exact absurd hr (by simp)
  | some p =>
    obtain ⟨trimmed, st⟩ := p
    rw [htr] at hr
    simp only [List.length_map, List.length_range] at hr
    split_ifs at hr with h0
    · left
      exact (Option.some_inj.mp hr).symm
    · right
      refine ⟨trimmed, st, rfl, fun hemp => h0 (by simp [hemp]), ?_⟩
      have hn : 0 < trimmed.length := Nat.pos_of_ne_zero h0
      rw [← Option.some_inj.mp hr]
      have h1 : ((List.range trimmed.length).map (fun j : Nat => (j : ℚ) * t + s)).getD 0 0 = s := by
        rw [p_time_getD t s trimmed.length 0 hn]; ring
      have h2 : ((List.range trimmed.length).map (fun j : Nat => (j : ℚ) * t + s)).getD
          (trimmed.length - 1) 0 = ((trimmed.length - 1 : Nat) : ℚ) * t + s :=
        p_time_getD t s trimmed.length (trimmed.length - 1) (by omega)
      rw [h1, h2]

/-- Function `frames_to_time` never returns a negative time. -/
lemma frames_to_time_nonneg (f hop sr : Nat) : 0 ≤ frames_to_time f hop sr :=
  div_nonneg (Nat.cast_nonneg _) (Nat.cast_nonneg _)

/-- C3: on a nonempty all-non-positive pitch track,
`trim_pitch_track_end` returns an empty sub-sequence and a start index
bounded by the last index (equal to it when all entries are strictly
negative), with no index error.  (The empty track is excluded: there
the very first subscript raises `IndexError`, see
`c3_counterexample`.) -/
theorem c3_trim_all_nonpositive (pt : List ℚ) (hne : pt ≠ [])
    (hall : ∀ x ∈ pt, x ≤ 0) :
    ∃ st, trim_pitch_track_end pt = some ([], st) ∧ st ≤ pt.length - 1 ∧
      ((∀ x ∈ pt, x < 0) → st = pt.length - 1) := by
  have hlen : 0 < pt.length := List.length_pos.mpr hne
  have hne' : pt.isEmpty = false := by simpa [List.isEmpty_iff] using hne
  have hstle : scanLoop (fun x => decide (x < 0)) pt 0 ≤ pt.length - 1 :=
    scanLoopAux_le _ pt pt.length 0 (by omega)
  have hstlt : scanLoop (fun x => decide (x < 0)) pt 0 < pt.length := by omega
  have hmem : pt.getD (scanLoop (fun x => decide (x < 0)) pt 0) 0 ∈ pt := by
    rw [List.getD_eq_getElem _ _ hstlt]; exact List.getElem_mem hstlt
  have hstop : scanLoop (fun x => decide (0 < x)) pt (scanLoop (fun x => decide (x < 0)) pt 0)
      = scanLoop (fun x => decide (x < 0)) pt 0 :=
    scanLoopAux_stop _ pt pt.length _ hstlt
      (decide_eq_false (not_lt.mpr (hall _ hmem))) (by omega)
  refine ⟨scanLoop (fun x => decide (x < 0)) pt 0, ?_, hstle, ?_⟩
  · rw [trim_pitch_track_end, hne']
    simp only [Bool.false_eq_true, if_false, hstop, Nat.sub_self, List.take_zero]
  · intro hneg
    exact scanLoopAux_all _ pt (fun x hx => decide_eq_true (hneg x hx)) pt.length 0
      (by omega) hlen

/-- C3 counterexample: on the empty pitch track the first loop of
`trim_pitch_track_end` subscripts `pitch_track[0]` and raises
`IndexError` (modelled as `none`), rather than returning an empty
sub-sequence. -/
theorem c3_counterexample : trim_pitch_track_end ([] : List ℚ) = none := rfl

/-- C3 witness: a concrete nonempty all-negative track. -/
theorem c3_witness :
    ∃ st, trim_pitch_track_end [-1, -2, -3] = some ([], st) ∧ st ≤ 2 ∧
      ((∀ x ∈ ([-1, -2, -3] : List ℚ), x < 0) → st = 2) :=
  c3_trim_all_nonpositive [-1, -2, -3] (by decide)
    (by intro x hx; fin_cases hx <;> norm_num)

/-- C1: the single-note script on the synthetic pitch track
`[-1,-1,440,440,440,-1,-1]` with step `0.01` and zero start time.
Trimming does yield `[440,440,440]` at start index 2, but `main`
computes `p_time = arange(3) * 0.01 + 0`, so the on/off row it writes
is `(0.0, 0.02)` — not the claimed `(0.02, 0.04)`: the trim start
index `st` is dropped from the time base (and misused to re-slice the
already-trimmed track, leaving the pitch-track CSV empty). -/
theorem c1_mono_main_eval :
    trim_pitch_track_end [-1, -1, 440, 440, 440, -1, -1] = some ([440, 440, 440], 2) ∧
    mono_main (1 / 100) 0 [-1, -1, 440, 440, 440, -1, -1] =
      some { exitCode := 0, printedDrop := false, ptRows := [],
             onoffRows := [(0, 1 / 50)],
             opens := [⟨"pt", FileMode.append⟩, ⟨"onoff", FileMode.append⟩] } := by
  have h : trim_pitch_track_end [-1, -1, 440, 440, 440, -1, -1] =
      some ([440, 440, 440], 2) := by decide
  refine ⟨h, ?_⟩
  rw [mono_main, h]
  norm_num [List.range_succ]

/-- C9: when the trimmed pitch track is empty, `mono_anal.main` prints
the drop message, writes no row to either CSV (indeed opens no file),
and returns exit code 0. -/
theorem c9_empty_trim_no_output (t_step seg_start_time : ℚ) (ptk : List ℚ) (st : Nat)
    (h : trim_pitch_track_end ptk = some ([], st)) :
    mono_main t_step seg_start_time ptk =
      some { exitCode := 0, printedDrop := true, ptRows := [], onoffRows := [],
             opens := [] } := by
  rw [mono_main, h]
  simp

/-- C9 witness: a track whose single frame is unvoiced. -/
theorem c9_witness :
    mono_main 1 0 [-1] =
      some { exitCode := 0, printedDrop := true, ptRows := [], onoffRows := [],
             opens := [] } :=
  c9_empty_trim_no_output 1 0 [-1] 0 (by decide)

/-- C5: in `stem_anal.segment_offset`, when no peak-picked candidate
survives the likelihood/time filtering, the detected offset frame is
`silence_f`: the first frame index `≥ 5` whose energy is below `1e-14`,
or the last frame of the energy sequence when no such frame exists. -/
theorem c5_fallback_silence_frame (cand : List Nat) (tpp : List ℚ) (tStep : ℚ)
    (rms : List ℚ) (h : filter_cand cand tpp tStep = []) :
    offset_frames cand tpp tStep rms = [silence_f rms] ∧
    (∀ k, k < rms.length → 5 ≤ k → rms.getD k 0 < eps14 →
      5 ≤ silence_f rms ∧ silence_f rms < rms.length ∧
        rms.getD (silence_f rms) 0 < eps14 ∧
        ∀ m, m < silence_f rms → ¬(5 ≤ m ∧ rms.getD m 0 < eps14)) ∧
    ((∀ k, k < rms.length → ¬(5 ≤ k ∧ rms.getD k 0 < eps14)) →
      silence_f rms = rms.length - 1) :=
  ⟨by simp [offset_frames, h],
   fun k hk h5 hv => silence_f_found rms k hk h5 hv,
   silence_f_not_found rms⟩

/-- C5 witness: no candidate survives (the only candidate has
likelihood 1 ≤ 2), and frame 5 is the first below the floor. -/
theorem c5_witness :
    offset_frames [3] [1, 1, 1, 1] 1 [1, 1, 1, 1, 1, 0] =
      [silence_f [1, 1, 1, 1, 1, 0]] :=
  (c5_fallback_silence_frame [3] [1, 1, 1, 1] 1 [1, 1, 1, 1, 1, 0] (by decide)).1

/-- C6: the 4-second truncation of `stem_anal.segment_offset` is a
no-op on segments of at most `4*sr` samples and keeps exactly the first
`4*sr` samples of longer segments. -/
theorem c6_truncation (seg : List ℚ) (sr : Nat) :
    (seg.length ≤ 4 * sr → truncate4s seg sr = seg) ∧
    (4 * sr < seg.length → truncate4s seg sr = seg.take (4 * sr) ∧
      (truncate4s seg sr).length = 4 * sr) := by
  constructor
  · intro h
    simp [truncate4s, Nat.not_lt.mpr h]
  · intro h
    refine ⟨by simp [truncate4s, h], ?_⟩
    simp only [truncate4s, h, if_true, List.length_take]
    omega

/-- C6 witness: a 5-sample segment at sample rate 1 is cut to 4 samples. -/
theorem c6_witness :
    truncate4s [1, 2, 3, 4, 5] 1 = List.take (4 * 1) [1, 2, 3, 4, 5] ∧
      (truncate4s [1, 2, 3, 4, 5] 1).length = 4 * 1 :=
  (c6_truncation [1, 2, 3, 4, 5] 1).2 (by decide)

/-- C7: `chop_sig` produces exactly one segment per onset; segment `i`
is the sample slice from onset `i` (inclusive) to onset `i+1`
(exclusive), and the last segment runs to the end of the buffer. -/
theorem c7_chop_sig_segments (y : List ℚ) (ons : List Nat) :
    (chop_sig y ons).length = ons.length ∧
    (∀ i, i + 1 < ons.length →
      (chop_sig y ons).getD i [] =
        (y.drop (ons.getD i 0)).take (ons.getD (i + 1) 0 - ons.getD i 0)) ∧
    (ons ≠ [] →
      (chop_sig y ons).getD (ons.length - 1) [] =
        y.drop (ons.getD (ons.length - 1) 0)) := by
  refine ⟨by simp [chop_sig], ?_, ?_⟩
  · intro i hi
    rw [List.getD_eq_getElem _ _ (by simp [chop_sig]; omega)]
    simp only [chop_sig, List.getElem_map, List.getElem_range]
    rw [if_neg (by omega)]
  · intro hne
    have hlen : 0 < ons.length := List.length_pos.mpr hne
    rw [List.getD_eq_getElem _ _ (by simp [chop_sig]; omega)]
    simp only [chop_sig, List.getElem_map, List.getElem_range]
    rw [if_pos (by omega), ← List.length_drop]
    exact List.take_length _

/-- C7 witness: two onsets over a 5-sample buffer; the last segment
reaches the end of the buffer. -/
theorem c7_witness :
    (chop_sig [1, 2, 3, 4, 5] [1, 3]).getD (List.length [1, 3] - 1) [] =
      List.drop (List.getD [1, 3] (List.length [1, 3] - 1) 0) [1, 2, 3, 4, 5] :=
  (c7_chop_sig_segments [1, 2, 3, 4, 5] [1, 3]).2.2 (by decide)

/-- C2 counterexample: a silent segment (all-zero rms envelope over six
frames, no peak-picked candidate) at sample rate 44100 makes
`segment_offset` fall back to silence frame 5, whose time
`5*256/44100 ≈ 0.029 s` is earlier than `0.06 s` after the segment
start — refuting "the offset time is never earlier than 0.06 s after
the start time of the segment". -/
theorem c2_counterexample :
    (segment_offset [] [] 1 [0, 0, 0, 0, 0, 0] [] 44100 0).1 < 6 / 100 := by
  norm_num [segment_offset, offset_frames, filter_cand, silence_f, silenceAux,
    addEps, eps14, eps15, frames_to_time]

/-- C2 (amended): every offset time coming from a surviving peak-picked
candidate is strictly later than `0.06 s` after the segment start (the
candidate time filter and `frames_to_time` agree when the analyzer time
step is `256/sr`); only the silence-frame fallback can be earlier. -/
theorem c2_candidate_offset_after_60ms (cand : List Nat) (tpp : List ℚ)
    (rawRms ptk : List ℚ) (sr : Nat) (s : ℚ)
    (hne : filter_cand cand tpp ((256 : ℚ) / (sr : ℚ)) ≠ []) :
    s + 6 / 100 <
      (segment_offset cand tpp ((256 : ℚ) / (sr : ℚ)) rawRms ptk sr s).1 := by
  obtain ⟨f, fs, hfc⟩ : ∃ f fs, filter_cand cand tpp ((256 : ℚ) / (sr : ℚ)) = f :: fs := by
    cases h : filter_cand cand tpp ((256 : ℚ) / (sr : ℚ)) with
    | nil => exact absurd h hne
    | cons a l => exact ⟨a, l, rfl⟩
  have hf_mem : f ∈ filter_cand cand tpp ((256 : ℚ) / (sr : ℚ)) := by
    rw [hfc]; exact List.mem_cons_self _ _
  have hf_time : (6 : ℚ) / 100 < (f : ℚ) * ((256 : ℚ) / (sr : ℚ)) := by
    simpa using List.of_mem_filter hf_mem
  have hof : offset_frames cand tpp ((256 : ℚ) / (sr : ℚ)) (addEps rawRms) = f :: fs := by
    simp [offset_frames, hfc]
  have hft : frames_to_time f 256 sr = (f : ℚ) * ((256 : ℚ) / (sr : ℚ)) := by
    rw [frames_to_time]
    push_cast
    ring
  simp only [segment_offset, hof, List.headD_cons, hft]
  linarith

/-- C2 witness: one surviving candidate (frame 1, likelihood 3 > 2,
time 256 s > 0.06 s at sample rate 1). -/
theorem c2_witness :
    (0 : ℚ) + 6 / 100 <
      (segment_offset [1] [0, 3] ((256 : ℚ) / ((1 : Nat) : ℚ)) [] [] 1 0).1 :=
  c2_candidate_offset_after_60ms [1] [0, 3] [] [] 1 0
    (by norm_num [filter_cand, List.filter])

/-- C10: in the per-segment loop of the segmentation driver, a pitch-track
row is written exactly for the frames whose frequency is strictly
positive: every written frequency is `> 0`, and every strictly positive
frame produces its row. -/
theorem c10_pt_rows_positive (s t : ℚ) (ptk : List ℚ) :
    (∀ row ∈ stem_pt_rows s t ptk, 0 < row.2) ∧
    (∀ i, i < ptk.length → 0 < ptk.getD i 0 →
      (s + (i : ℚ) * t, ptk.getD i 0) ∈ stem_pt_rows s t ptk) := by
  constructor
  · intro row hrow
    simp only [stem_pt_rows, List.mem_map] at hrow
    obtain ⟨p, hp, rfl⟩ := hrow
    simpa using List.of_mem_filter hp
  · intro i hi hpos
    have hmem : (i, ptk.getD i 0) ∈ ptk.enum := by
      rw [List.mk_mem_enum_iff_getElem?, List.getD_eq_getElem _ _ hi]
      exact List.getElem?_eq_getElem hi
    exact List.mem_map.mpr
      ⟨(i, ptk.getD i 0), List.mem_filter.mpr ⟨hmem, by simpa using hpos⟩, rfl⟩

/-- C10 witness: a track with one voiced and one unvoiced frame; the
row of the voiced frame is present. -/
theorem c10_witness :
    ((0 : ℚ) + ((0 : Nat) : ℚ) * 1, List.getD [2, -1] 0 0) ∈
      stem_pt_rows 0 1 [2, -1] :=
  (c10_pt_rows_positive 0 1 [2, -1]).2 0 (by decide) (by decide)

/-- C4 counterexample: the segmentation driver `stem_anal.main` opens
both CSV outputs in write (truncating) mode before its per-segment
appends — so it is not true that the scripts only ever open the CSV
outputs in append mode. -/
theorem c4_counterexample :
    ¬ ∀ e ∈ stem_main_opens 1, e.mode = FileMode.append := by decide

/-- C4 (amended): the single-note scripts (`mono_anal.main`,
`note_anal.main`) open their CSV outputs only in append mode, so their
rows accumulate across invocations; the segmentation driver
(`stem_anal.main`) instead first truncates both of its outputs by
opening them in write mode and only then appends per segment. -/
theorem c4_append_modes (t s : ℚ) (ptk : List ℚ) (r : MonoResult)
    (hr : mono_main t s ptk = some r) (n : Nat) :
    (∀ e ∈ r.opens, e.mode = FileMode.append) ∧
    (∀ e ∈ note_main_opens, e.mode = FileMode.append) ∧
    (∀ e ∈ (stem_main_opens n).take 2, e.mode = FileMode.write) ∧
    (∀ e ∈ (stem_main_opens n).drop 2, e.mode = FileMode.append) := by
  refine ⟨?_, ?_, ?_, ?_⟩
  · rcases mono_main_shape t s ptk r hr with rfl | ⟨trimmed, st, -, -, rfl⟩
    · intro e he; simp at he
    · intro e he
      simp only [List.mem_cons, List.not_mem_nil, or_false] at he
      rcases he with rfl | rfl <;> rfl
  · intro e he
    simp only [note_main_opens, List.mem_cons, List.not_mem_nil, or_false] at he
    rcases he with rfl | rfl <;> rfl
  · intro e he
    simp only [stem_main_opens, List.take_succ_cons, List.take_zero,
      List.mem_cons, List.not_mem_nil, or_false] at he
    rcases he with rfl | rfl <;> rfl
  · intro e he
    simp only [stem_main_opens, List.drop_succ_cons, List.drop_zero,
      List.mem_flatMap] at he
    obtain ⟨-, -, hmem⟩ := he
    simp only [List.mem_cons, List.not_mem_nil, or_false] at hmem
    rcases hmem with rfl | rfl <;> rfl

/-- C4 witness: a run of the single-note script that wrote output, and
a one-segment driver run. -/
theorem c4_witness :
    (OpenEvent.mk "onoff" FileMode.append).mode = FileMode.append :=
  (c4_append_modes 1 0 [5, 5]
      { exitCode := 0, printedDrop := false, ptRows := [], onoffRows := [(0, 0)],
        opens := [⟨"pt", FileMode.append⟩, ⟨"onoff", FileMode.append⟩] }
      (by
        have h : trim_pitch_track_end [5, 5] = some ([5], 0) := by decide
        rw [mono_main, h]
        norm_num [List.range_succ])
      1).2.2.2 ⟨"onoff", FileMode.append⟩ (by decide)

/-- C8: every onset/offset pair any script writes has offset ≥ onset:
the row of the single-note script satisfies it whenever the analyzer time
step is nonnegative, and both offset heuristics return an offset time
at least the segment start time. -/
theorem c8_offset_ge_onset (t s : ℚ) (ptk : List ℚ) (r : MonoResult)
    (ht : 0 ≤ t) (hr : mono_main t s ptk = some r) :
    (∀ p ∈ r.onoffRows, p.1 ≤ p.2) ∧
    (∀ (cand : List Nat) (tpp : List ℚ) (tS : ℚ) (rawRms ptk2 : List ℚ)
        (sr : Nat) (s2 : ℚ),
      s2 ≤ (segment_offset cand tpp tS rawRms ptk2 sr s2).1) ∧
    (∀ (lop ptk3 : List ℚ) (tS3 : ℚ) (sr3 : Nat) (s3 : ℚ),
      s3 ≤ (note_segment_offset lop ptk3 tS3 sr3 s3).1) := by
  refine ⟨?_, ?_, ?_⟩
  · rcases mono_main_shape t s ptk r hr with rfl | ⟨trimmed, st, -, -, rfl⟩
    · intro p hp; simp at hp
    · intro p hp
      simp only [List.mem_cons, List.not_mem_nil, or_false] at hp
      subst hp
      have hmul : (0 : ℚ) ≤ ((trimmed.length - 1 : Nat) : ℚ) * t :=
        mul_nonneg (Nat.cast_nonneg _) ht
      simpa using by linarith
  · intro cand tpp tS rawRms ptk2 sr s2
    have := frames_to_time_nonneg
      ((offset_frames cand tpp tS (addEps rawRms)).headD 0) 256 sr
    simp only [segment_offset]
    linarith
  · intro lop ptk3 tS3 sr3 s3
    have := frames_to_time_nonneg (note_offset_frame lop) 256 sr3
    simp only [note_segment_offset]
    linarith

/-- C8 witness: a concrete run of the single-note script plus concrete
heuristic inputs. -/
theorem c8_witness :
    (0 : ℚ) ≤ (segment_offset [] [] 0 [] [] 1 0).1 :=
  (c8_offset_ge_onset 1 0 [5, 5]
      { exitCode := 0, printedDrop := false, ptRows := [], onoffRows := [(0, 0)],
        opens := [⟨"pt", FileMode.append⟩, ⟨"onoff", FileMode.append⟩] }
      (by norm_num)
      (by
        have h : trim_pitch_track_end [5, 5] = some ([5], 0) := by decide
        rw [mono_main, h]
        norm_num [List.range_succ])).2.1
    [] [] 0 [] [] 1 0

end GuitarSet

